import Mathlib

/-!
Shallow embedding of the close-approach search engine of
`collision_detector.py` (class `CollisionDetector` and the record type
`CloseApproach`).  Machine floats are modelled as exact rationals;
Python's `float('inf')` is the dedicated value `DistanceValue.inf`;
exceptions raised by the external ephemeris provider are modelled by
`Option`-valued propagation functions (`none` = `ValueError` raised), and
the external scipy bounded minimizer is an abstract function parameter.
-/

namespace CollisionDetect

/-- Value taken by the pair distance function `distance_at_offset`: a
finite float distance in km, or Python's `float('inf')`, which the code
returns when propagation fails. -/
inductive DistanceValue where
  | fin (d : ℚ)
  | inf
deriving DecidableEq, Repr

/-- Python's `min(group, key=lambda x: x[1])` on a nonempty group
`x :: xs`: the first element with smallest second component. -/
def minByDist (x : ℚ × ℚ) (xs : List (ℚ × ℚ)) : ℚ × ℚ :=
  xs.foldl (fun best y => if y.2 < best.2 then y else best) x

/-- Insertion step of a stable sort by time offset: the new element goes
after all elements with smaller-or-equal first component. -/
def insertByOffset (x : ℚ × ℚ) : List (ℚ × ℚ) → List (ℚ × ℚ)
  | [] => [x]
  | y :: ys => if y.1 ≤ x.1 then y :: insertByOffset x ys else x :: y :: ys

/-- `sorted(minima, key=lambda x: x[0])`: Python's stable sort by time
offset, modelled as a stable insertion sort. -/
def sortByOffset (minima : List (ℚ × ℚ)) : List (ℚ × ℚ) :=
  minima.foldl (fun acc x => insertByOffset x acc) []

/-- The grouping loop of `_remove_duplicate_minima`.  The current group is
`g :: gs` in order of addition; the next candidate is compared against the
group's last member (`current_group[-1]`, here `gs.getLastD g`); when the
gap exceeds the threshold the group's minimum-distance member is emitted
and a fresh group starts; at the end the final group's minimum is emitted. -/
def dedupGo (thresholdSeconds : ℚ) (g : ℚ × ℚ) (gs : List (ℚ × ℚ)) :
    List (ℚ × ℚ) → List (ℚ × ℚ)
  | [] => [minByDist g gs]
  | x :: rest =>
    if x.1 - (gs.getLastD g).1 ≤ thresholdSeconds then
      dedupGo thresholdSeconds g (gs ++ [x]) rest
    else
      minByDist g gs :: dedupGo thresholdSeconds x [] rest

/-- `CollisionDetector._remove_duplicate_minima` (default threshold 300 s). -/
def removeDuplicateMinima (minima : List (ℚ × ℚ)) (thresholdSeconds : ℚ) :
    List (ℚ × ℚ) :=
  match sortByOffset minima with
  | [] => []
  | m :: ms => dedupGo thresholdSeconds m [] ms

/-- Python's `int(q)`: truncation toward zero. -/
def pyTrunc (q : ℚ) : ℤ := if 0 ≤ q then ⌊q⌋ else ⌈q⌉

/-- `num_segments = max(1, int(duration_seconds / 3600 / segment_hours))`
from `_find_minimum_distance_brent` (the code fixes `segment_hours = 4`). -/
def numSegments (durationSeconds segmentHours : ℚ) : ℤ :=
  max 1 (pyTrunc (durationSeconds / 3600 / segmentHours))

/-- The list of per-segment bounds `(i * segment_size, (i+1) * segment_size)`
of `_find_minimum_distance_brent`, with
`segment_size = duration_seconds / num_segments`. -/
def segmentBounds (durationSeconds segmentHours : ℚ) : List (ℚ × ℚ) :=
  let n := numSegments durationSeconds segmentHours
  let segmentSize := durationSeconds / (n : ℚ)
  (List.range n.toNat).map
    (fun (i : ℕ) => ((i : ℚ) * segmentSize, ((i : ℚ) + 1) * segmentSize))

/-- A 3-vector of float components (position in km or velocity in km/s). -/
abbrev Vec3 := ℚ × ℚ × ℚ

/-- One object's propagation capability at an absolute time:
`none` models `self.propagator.propagate` raising `ValueError`. -/
abbrev PropFun := ℚ → Option (Vec3 × Vec3)

/-- `distance_at_offset` inside `_find_minimum_distance_brent`: propagate
both objects at `t = start_time + offset_seconds`; on success the value is
the norm of the position difference, on `ValueError` it is `float('inf')`.
`norm3` abstracts `np.linalg.norm` on 3-vectors. -/
def distance_at_offset (norm3 : Vec3 → ℚ) (prop1 prop2 : PropFun)
    (startTime offsetSeconds : ℚ) : DistanceValue :=
  match prop1 (startTime + offsetSeconds), prop2 (startTime + offsetSeconds) with
  | some (p1, _), some (p2, _) => .fin (norm3 (p1 - p2))
  | _, _ => .inf

/-- The pluggable bounded scalar minimizer (`scipy.optimize.minimize_scalar`
with the bounded method): from the distance function and segment bounds it
returns `(result.x, result.fun)`, or `none` when it raises. -/
abbrev Minimizer := (ℚ → DistanceValue) → ℚ → ℚ → Option (ℚ × DistanceValue)

/-- Contract of the bounded method: the reported minimum location lies
within the requested bounds. -/
def BoundedMinimizer (minimize : Minimizer) : Prop :=
  ∀ f a b x fx, minimize f a b = some (x, fx) → a ≤ x ∧ x ≤ b

/-- `CollisionDetector._find_minimum_distance_brent` with the distance
function and minimizer abstracted: for each segment run the minimizer and
record `(result.x, result.fun)` when `result.fun < screening_threshold_km`
(false when the value is `inf`); a minimizer failure skips the segment. -/
def brentOverSegments (minimize : Minimizer) (f : ℚ → DistanceValue)
    (screeningThresholdKm : ℚ) : List (ℚ × ℚ) → List (ℚ × ℚ)
  | [] => []
  | seg :: rest =>
    match minimize f seg.1 seg.2 with
    | some (x, .fin q) =>
      if q < screeningThresholdKm then
        (x, q) :: brentOverSegments minimize f screeningThresholdKm rest
      else brentOverSegments minimize f screeningThresholdKm rest
    | some (_, .inf) => brentOverSegments minimize f screeningThresholdKm rest
    | none => brentOverSegments minimize f screeningThresholdKm rest

def findMinimumDistanceBrent (minimize : Minimizer) (f : ℚ → DistanceValue)
    (durationSeconds screeningThresholdKm segmentHours : ℚ) : List (ℚ × ℚ) :=
  brentOverSegments minimize f screeningThresholdKm
    (segmentBounds durationSeconds segmentHours)

/-- Alert levels of `AlertLevel` in the source. -/
inductive AlertLevel where
  | RED
  | YELLOW
  | GREEN
deriving DecidableEq, Repr

/-- `CloseApproach.alert_level`: RED below 10 km, YELLOW below 25 km,
GREEN for everything else. -/
def alertLevel (distance_km : ℚ) : AlertLevel :=
  if distance_km < 10 then .RED
  else if distance_km < 25 then .YELLOW
  else .GREEN

/-- Catalog metadata the detector reads from one `GPData` record. -/
structure GPData where
  name : String
  epoch : String
deriving DecidableEq, Repr

/-- The `CloseApproach` record. -/
structure CloseApproach where
  tca : ℚ
  sat1_name : String
  sat1_catalog : ℕ
  sat2_name : String
  sat2_catalog : ℕ
  distance_km : ℚ
  sat1_position : Vec3
  sat2_position : Vec3
  sat1_velocity : Vec3
  sat2_velocity : Vec3
  relative_velocity_km_s : ℚ
deriving DecidableEq, Repr

/-- The acceptance test of `scan_for_target`:
`self.min_distance_km <= distance <= self.threshold_km`. -/
def acceptsDistance (minDistanceKm thresholdKm d : ℚ) : Bool :=
  decide (minDistanceKm ≤ d) && decide (d ≤ thresholdKm)

/-- The classification loop of `scan_for_target`: for each deduplicated
candidate offset, re-propagate both objects at `tca = start_time + offset`;
a `ValueError` at the TCA drops the candidate (`continue`); otherwise a
`CloseApproach` is appended iff the recomputed distance passes
`acceptsDistance`. -/
def classifyCandidates (norm3 : Vec3 → ℚ) (minDistanceKm thresholdKm : ℚ)
    (prop1 prop2 : PropFun) (startTime : ℚ)
    (targetSat otherSat : GPData) (targetCatalog otherCatalog : ℕ)
    (offsets : List ℚ) : List CloseApproach :=
  offsets.foldr (fun offsetSeconds acc =>
    let tca := startTime + offsetSeconds
    match prop1 tca, prop2 tca with
    | some (p1, v1), some (p2, v2) =>
      let distance := norm3 (p1 - p2)
      if acceptsDistance minDistanceKm thresholdKm distance then
        ⟨tca, targetSat.name, targetCatalog, otherSat.name, otherCatalog,
          distance, p1, p2, v1, v2, norm3 (v1 - v2)⟩ :: acc
      else acc
    | _, _ => acc) []

/-- The statistics lines of `scan_for_target` for one pair: the smallest
distance among minima at least `min_distance_km` (non-docked), `inf` when
there is none. -/
def minNonDocked (allMinima : List (ℚ × ℚ)) (minDistanceKm : ℚ) : DistanceValue :=
  match (allMinima.map Prod.snd).filter (fun d => minDistanceKm ≤ d) with
  | [] => .inf
  | d :: ds => .fin (ds.foldl min d)

/-- One pair's pass through `scan_for_target`: Brent search over the pair's
distance function, per-pair statistics, deduplication, classification.
Returns the accepted records together with the statistics contribution
`(count of minima found, minimum non-docked distance)`. -/
def scanPairWithStats (minimize : Minimizer) (norm3 : Vec3 → ℚ)
    (minDistanceKm thresholdKm : ℚ) (prop1 prop2 : PropFun)
    (startTime durationSeconds screeningThresholdKm segmentHours dedupSeconds : ℚ)
    (targetSat otherSat : GPData) (targetCatalog otherCatalog : ℕ) :
    List CloseApproach × (ℕ × DistanceValue) :=
  let allMinima := findMinimumDistanceBrent minimize
    (distance_at_offset norm3 prop1 prop2 startTime) durationSeconds
    screeningThresholdKm segmentHours
  let uniqueMinima := removeDuplicateMinima allMinima dedupSeconds
  (classifyCandidates norm3 minDistanceKm thresholdKm prop1 prop2 startTime
    targetSat otherSat targetCatalog otherCatalog (uniqueMinima.map Prod.fst),
   (allMinima.length, minNonDocked allMinima minDistanceKm))

/-- `CollisionDetector.filter_satellites_by_epoch`, with epoch parsing
abstracted (`parse s = none` models `_parse_epoch` raising): keep objects
whose epoch age `(ref - epoch).total_seconds() / 86400` is at most
`max_epoch_age_days`; the rest, and every unparsable epoch, count as
skipped. -/
def filterSatellitesByEpoch (parse : String → Option ℚ)
    (maxEpochAgeDays refTime : ℚ) :
    List (ℕ × GPData) → List (ℕ × GPData) × ℕ
  | [] => ([], 0)
  | (catNum, sat) :: rest =>
    let tail := filterSatellitesByEpoch parse maxEpochAgeDays refTime rest
    match parse sat.epoch with
    | some epochTime =>
      if (refTime - epochTime) / 86400 ≤ maxEpochAgeDays then
        ((catNum, sat) :: tail.1, tail.2)
      else (tail.1, tail.2 + 1)
    | none => (tail.1, tail.2 + 1)

/-- The WARNING prints in the target-resolution part of `scan_for_target`
(`targetReadded` = "Target excluded by epoch filter, adding it back"). -/
inductive ScanWarning where
  | targetReadded
deriving DecidableEq, Repr

/-- Outcome of target resolution: the working object set and the warnings
emitted while resolving. -/
structure ResolveResult where
  satellitesToUse : List (ℕ × GPData)
  warnings : List ScanWarning
deriving DecidableEq, Repr

/-- The target-resolution head of `scan_for_target`: fall back to the
unfiltered catalog when the filtered set is empty; force-include a target
excluded by the filter, with a WARNING; abort with an error (`none`) when
the target is in neither set. -/
def resolveTarget (filtered allSats : List (ℕ × GPData)) (targetCatalog : ℕ) :
    Option ResolveResult :=
  let satellitesToUse := if filtered.isEmpty then allSats else filtered
  match List.lookup targetCatalog satellitesToUse with
  | some _ => some ⟨satellitesToUse, []⟩
  | none =>
    match List.lookup targetCatalog allSats with
    | some sat => some ⟨(targetCatalog, sat) :: satellitesToUse, [.targetReadded]⟩
    | none => none


/-- Inserting an element is a permutation of consing it. -/
theorem insertByOffset_perm (x : ℚ × ℚ) (l : List (ℚ × ℚ)) :
    List.Perm (insertByOffset x l) (x :: l) := by
  induction l with
  | nil => simp [insertByOffset]
  | cons y ys ih =>
    simp only [insertByOffset]
    by_cases h : y.1 ≤ x.1
    · rw [if_pos h]
      exact (ih.cons y).trans (List.Perm.swap x y ys)
    · rw [if_neg h]

theorem foldl_insertByOffset_perm :
    ∀ (l acc : List (ℚ × ℚ)),
      List.Perm (l.foldl (fun acc x => insertByOffset x acc) acc) (acc ++ l)
  | [], acc => by simp
  | a :: l, acc => by
    simp only [List.foldl_cons]
    have h2 : List.Perm (insertByOffset a acc ++ l) (acc ++ a :: l) :=
      ((insertByOffset_perm a acc).append_right l).trans List.perm_middle.symm
    exact (foldl_insertByOffset_perm l (insertByOffset a acc)).trans h2

/-- The modelled Python `sorted` is a permutation of its input. -/
theorem sortByOffset_perm (l : List (ℚ × ℚ)) : List.Perm (sortByOffset l) l := by
  simpa using foldl_insertByOffset_perm l []

theorem mem_insertByOffset {y x : ℚ × ℚ} {l : List (ℚ × ℚ)} :
    y ∈ insertByOffset x l ↔ y = x ∨ y ∈ l := by
  rw [(insertByOffset_perm x l).mem_iff, List.mem_cons]

theorem insertByOffset_pairwise {x : ℚ × ℚ} {l : List (ℚ × ℚ)}
    (hl : l.Pairwise (fun a b => a.1 ≤ b.1)) :
    (insertByOffset x l).Pairwise (fun a b => a.1 ≤ b.1) := by
  induction l with
  | nil => simp [insertByOffset]
  | cons y ys ih =>
    simp only [insertByOffset]
    rcases List.pairwise_cons.mp hl with ⟨hy, hys⟩
    by_cases h : y.1 ≤ x.1
    · rw [if_pos h]
      refine List.pairwise_cons.mpr ⟨?_, ih hys⟩
      intro z hz
      rcases mem_insertByOffset.mp hz with rfl | hz
      · exact h
      · exact hy z hz
    · rw [if_neg h]
      refine List.pairwise_cons.mpr ⟨?_, hl⟩
      intro z hz
      rcases List.mem_cons.mp hz with rfl | hz
      · exact le_of_lt (lt_of_not_le h)
      · exact le_of_lt (lt_of_lt_of_le (lt_of_not_le h) (hy z hz))

theorem foldl_insertByOffset_pairwise :
    ∀ (l acc : List (ℚ × ℚ)), acc.Pairwise (fun a b => a.1 ≤ b.1) →
      (l.foldl (fun acc x => insertByOffset x acc) acc).Pairwise
        (fun a b => a.1 ≤ b.1)
  | [], _, h => h
  | a :: l, acc, h => by
    simp only [List.foldl_cons]
    exact foldl_insertByOffset_pairwise l (insertByOffset a acc)
      (insertByOffset_pairwise h)

/-- The modelled Python `sorted` output is sorted by time offset. -/
theorem sortByOffset_pairwise (l : List (ℚ × ℚ)) :
    (sortByOffset l).Pairwise (fun a b => a.1 ≤ b.1) :=
  foldl_insertByOffset_pairwise l [] List.Pairwise.nil

/-- Python's `min(group, key=...)` returns a member of the group. -/
theorem minByDist_mem : ∀ (xs : List (ℚ × ℚ)) (x : ℚ × ℚ),
    minByDist x xs ∈ x :: xs
  | [], x => by simp [minByDist]
  | y :: ys, x => by
    have hd : minByDist x (y :: ys) = minByDist (if y.2 < x.2 then y else x) ys := by
      simp only [minByDist, List.foldl_cons]
    rw [hd]
    by_cases hc : y.2 < x.2
    · rw [if_pos hc]
      exact List.mem_cons_of_mem x (minByDist_mem ys y)
    · rw [if_neg hc]
      rcases List.mem_cons.mp (minByDist_mem ys x) with h | h
      · simp [h]
      · simp [h]

/-- In a list sorted by offset, every member's offset is bounded by the
offset of the last element. -/
theorem offset_le_getLastD :
    ∀ (gs : List (ℚ × ℚ)) (g z : ℚ × ℚ),
      (g :: gs).Pairwise (fun a b => a.1 ≤ b.1) → z ∈ g :: gs →
      z.1 ≤ (gs.getLastD g).1
  | [], g, z, _, hz => by
    rcases List.mem_cons.mp hz with rfl | hz
    · simp [List.getLastD_nil]
    · simp at hz
  | w :: ws, g, z, hp, hz => by
    rw [List.getLastD_cons]
    rcases List.pairwise_cons.mp hp with ⟨hg, hws⟩
    rcases List.mem_cons.mp hz with rfl | hz
    · calc z.1 ≤ w.1 := hg w (by simp)
        _ ≤ (ws.getLastD w).1 := offset_le_getLastD ws w w hws (by simp)
    · exact offset_le_getLastD ws w z hws hz

/-- Everything `dedupGo` emits is a member of the current group or of the
remaining input. -/
theorem dedupGo_mem (t : ℚ) :
    ∀ (rest : List (ℚ × ℚ)) (g : ℚ × ℚ) (gs : List (ℚ × ℚ)) (y : ℚ × ℚ),
      y ∈ dedupGo t g gs rest → y ∈ g :: gs ∨ y ∈ rest
  | [], g, gs, y, hy => by
    simp only [dedupGo] at hy
    rcases List.mem_singleton.mp hy with rfl
    exact Or.inl (minByDist_mem gs g)
  | x :: rest, g, gs, y, hy => by
    simp only [dedupGo] at hy
    by_cases h : x.1 - (gs.getLastD g).1 ≤ t
    · rw [if_pos h] at hy
      rcases dedupGo_mem t rest g (gs ++ [x]) y hy with hmem | hmem
      · rcases List.mem_cons.mp hmem with rfl | hmem
        · exact Or.inl (by simp)
        · rcases List.mem_append.mp hmem with hmem | hmem
          · exact Or.inl (by simp [hmem])
          · rcases List.mem_singleton.mp hmem with rfl
            exact Or.inr (by simp)
      · exact Or.inr (by simp [hmem])
    · rw [if_neg h] at hy
      rcases List.mem_cons.mp hy with rfl | hy
      · exact Or.inl (minByDist_mem gs g)
      · rcases dedupGo_mem t rest x [] y hy with hmem | hmem
        · rcases List.mem_singleton.mp hmem with rfl
          exact Or.inr (by simp)
        · exact Or.inr (by simp [hmem])

/-- `dedupGo` always emits at least one survivor. -/
theorem dedupGo_ne_nil (t : ℚ) :
    ∀ (rest : List (ℚ × ℚ)) (g : ℚ × ℚ) (gs : List (ℚ × ℚ)),
      dedupGo t g gs rest ≠ []
  | [], g, gs => by simp [dedupGo]
  | x :: rest, g, gs => by
    simp only [dedupGo]
    by_cases h : x.1 - (gs.getLastD g).1 ≤ t
    · rw [if_pos h]; exact dedupGo_ne_nil t rest g (gs ++ [x])
    · rw [if_neg h]; simp

/-- Survivors emitted by `dedupGo` on a sorted input are strictly increasing
in offset and pairwise separated by strictly more than the merge threshold. -/
theorem dedupGo_pairwise (t : ℚ) (ht : 0 ≤ t) :
    ∀ (rest : List (ℚ × ℚ)) (g : ℚ × ℚ) (gs : List (ℚ × ℚ)),
      (g :: (gs ++ rest)).Pairwise (fun a b => a.1 ≤ b.1) →
      (dedupGo t g gs rest).Pairwise (fun a b => a.1 < b.1 ∧ t < b.1 - a.1)
  | [], g, gs, _ => by
    simp only [dedupGo]
    exact List.pairwise_singleton _ _
  | x :: rest, g, gs, hp => by
    simp only [dedupGo]
    by_cases h : x.1 - (gs.getLastD g).1 ≤ t
    · rw [if_pos h]
      refine dedupGo_pairwise t ht rest g (gs ++ [x]) ?_
      have heq : g :: ((gs ++ [x]) ++ rest) = g :: (gs ++ x :: rest) := by simp
      rw [heq]
      exact hp
    · rw [if_neg h]
      push_neg at h
      have hxrest : (x :: rest).Pairwise (fun a b : ℚ × ℚ => a.1 ≤ b.1) := by
        refine hp.sublist ?_
        refine List.Sublist.cons g ?_
        exact List.sublist_append_right gs (x :: rest)
      have hrec := dedupGo_pairwise t ht rest x [] (by simpa using hxrest)
      refine List.pairwise_cons.mpr ⟨?_, hrec⟩
      intro z hz
      have hzmem : z ∈ x :: rest := by
        rcases dedupGo_mem t rest x [] z hz with hmem | hmem
        · rcases List.mem_singleton.mp hmem with rfl; simp
        · simp [hmem]
      have hxz : x.1 ≤ z.1 := by
        rcases List.mem_cons.mp hzmem with rfl | hmem
        · exact le_refl _
        · exact (List.pairwise_cons.mp hxrest).1 z hmem
      have hgroup : (g :: gs).Pairwise (fun a b : ℚ × ℚ => a.1 ≤ b.1) := by
        refine hp.sublist ?_
        refine List.Sublist.cons₂ g ?_
        exact List.sublist_append_left gs (x :: rest)
      have hglast : (minByDist g gs).1 ≤ (gs.getLastD g).1 :=
        offset_le_getLastD gs g _ hgroup (minByDist_mem gs g)
      constructor
      · calc (minByDist g gs).1 ≤ (gs.getLastD g).1 := hglast
          _ < x.1 := by linarith
          _ ≤ z.1 := hxz
      · linarith

/-- Every deduplicated survivor is one of the input candidates. -/
theorem removeDuplicateMinima_mem {y : ℚ × ℚ} {minima : List (ℚ × ℚ)} {t : ℚ}
    (hy : y ∈ removeDuplicateMinima minima t) : y ∈ minima := by
  rw [removeDuplicateMinima] at hy
  cases hsort : sortByOffset minima with
  | nil => rw [hsort] at hy; simp at hy
  | cons m ms =>
    rw [hsort] at hy
    have hmem : y ∈ m :: ms := by
      rcases dedupGo_mem t ms m [] y hy with hmem | hmem
      · simp only [List.mem_singleton] at hmem
        exact hmem ▸ List.mem_cons_self m ms
      · exact List.mem_cons_of_mem m hmem
    rw [← hsort] at hmem
    exact (sortByOffset_perm minima).mem_iff.mp hmem

/-- Deduplicated survivors are strictly increasing in offset and pairwise
separated by strictly more than the merge threshold. -/
theorem removeDuplicateMinima_pairwise (minima : List (ℚ × ℚ)) {t : ℚ}
    (ht : 0 ≤ t) :
    (removeDuplicateMinima minima t).Pairwise
      (fun a b => a.1 < b.1 ∧ t < b.1 - a.1) := by
  rw [removeDuplicateMinima]
  cases hsort : sortByOffset minima with
  | nil => simp
  | cons m ms =>
    refine dedupGo_pairwise t ht ms m [] ?_
    have hs := sortByOffset_pairwise minima
    rw [hsort] at hs
    simpa using hs

/-- The deduplicator returns an empty list exactly on empty input. -/
theorem removeDuplicateMinima_eq_nil_iff (minima : List (ℚ × ℚ)) (t : ℚ) :
    removeDuplicateMinima minima t = [] ↔ minima = [] := by
  rw [removeDuplicateMinima]
  have hlen := (sortByOffset_perm minima).length_eq
  cases hsort : sortByOffset minima with
  | nil =>
    rw [hsort] at hlen
    simp only [List.length_nil] at hlen
    simp [List.length_eq_zero.mp hlen.symm]
  | cons m ms =>
    have hne := dedupGo_ne_nil t ms m []
    constructor
    · intro h; exact absurd h hne
    · intro h
      subst h
      simp [sortByOffset] at hsort

/-- The number of segments is always at least one. -/
theorem numSegments_pos (durationSeconds segmentHours : ℚ) :
    1 ≤ numSegments durationSeconds segmentHours := le_max_left _ _

theorem segmentBounds_length (durationSeconds segmentHours : ℚ) :
    (segmentBounds durationSeconds segmentHours).length =
      (numSegments durationSeconds segmentHours).toNat := by
  simp only [segmentBounds, List.length_map, List.length_range]

/-- Every segment lies inside the scan window `[0, durationSeconds]` with
its start not after its end. -/
theorem segmentBounds_subset_window {durationSeconds segmentHours : ℚ}
    (hW : 0 ≤ durationSeconds) {seg : ℚ × ℚ}
    (hseg : seg ∈ segmentBounds durationSeconds segmentHours) :
    0 ≤ seg.1 ∧ seg.1 ≤ seg.2 ∧ seg.2 ≤ durationSeconds := by
  simp only [segmentBounds] at hseg
  obtain ⟨i, hi, rfl⟩ := List.mem_map.mp hseg
  rw [List.mem_range] at hi
  have hn : 1 ≤ numSegments durationSeconds segmentHours := numSegments_pos _ _
  have hnq : (1 : ℚ) ≤ ((numSegments durationSeconds segmentHours : ℤ) : ℚ) := by
    exact_mod_cast hn
  have hsize : 0 ≤ durationSeconds / ((numSegments durationSeconds segmentHours : ℤ) : ℚ) :=
    div_nonneg hW (by linarith)
  have hiq : (i : ℚ) + 1 ≤ ((numSegments durationSeconds segmentHours : ℤ) : ℚ) := by
    have h1 : i + 1 ≤ (numSegments durationSeconds segmentHours).toNat := hi
    have h2 : ((i : ℤ) + 1 : ℤ) ≤ (numSegments durationSeconds segmentHours) := by
      have h3 := Int.toNat_of_nonneg (le_trans (by norm_num) hn)
      omega
    exact_mod_cast h2
  refine ⟨mul_nonneg (by positivity) hsize, ?_, ?_⟩
  · have : (i : ℚ) ≤ (i : ℚ) + 1 := by linarith
    exact mul_le_mul_of_nonneg_right this hsize
  · calc ((i : ℚ) + 1) * (durationSeconds / (numSegments durationSeconds segmentHours : ℚ))
        ≤ ((numSegments durationSeconds segmentHours : ℤ) : ℚ) *
          (durationSeconds / ((numSegments durationSeconds segmentHours : ℤ) : ℚ)) :=
          mul_le_mul_of_nonneg_right hiq hsize
      _ = durationSeconds := by
          field_simp

/-- C1: the minima deduplicator sorts candidates by time offset, greedily
groups consecutive candidates within the merge window of the previous
member added to the current group (chained grouping), and keeps from each
group only the member with the smallest distance: candidates at offsets
100 s and 350 s with distances 12.0 and 8.0 km collapse to the single
candidate (350 s, 8.0 km); candidates at 100 s and 500 s stay separate;
and a chain 0 s / 250 s / 500 s collapses to one candidate even though
its endpoints are more than 300 s apart (chained, not pairwise-to-first). -/
theorem removeDuplicateMinima_examples :
    removeDuplicateMinima [(100, 12), (350, 8)] 300 = [(350, 8)] ∧
    removeDuplicateMinima [(100, 12), (500, 8)] 300 = [(100, 12), (500, 8)] ∧
    removeDuplicateMinima [(0, 12), (250, 9), (500, 8)] 300 = [(500, 8)] := by
  refine ⟨?_, ?_, ?_⟩ <;>
    norm_num [removeDuplicateMinima, sortByOffset, insertByOffset, dedupGo,
      minByDist]

/-- C9: for every candidate list and positive merge threshold, each
deduplicated survivor is one of the input candidates, survivors are
strictly increasing in offset with any two offsets more than the merge
threshold apart, and the output is empty exactly when the input is. -/
theorem removeDuplicateMinima_invariants (minima : List (ℚ × ℚ)) (t : ℚ)
    (ht : 0 < t) :
    (∀ y ∈ removeDuplicateMinima minima t, y ∈ minima) ∧
    (removeDuplicateMinima minima t).Pairwise
      (fun a b => a.1 < b.1 ∧ t < b.1 - a.1) ∧
    (removeDuplicateMinima minima t = [] ↔ minima = []) :=
  ⟨fun _ hy => removeDuplicateMinima_mem hy,
   removeDuplicateMinima_pairwise minima (le_of_lt ht),
   removeDuplicateMinima_eq_nil_iff minima t⟩

/-- Witness for C9 at the concrete input `[(100, 12), (350, 8)]`, merge
threshold 300. -/
theorem removeDuplicateMinima_invariants_witness :
    (0 : ℚ) < 300 ∧
    ((∀ y ∈ removeDuplicateMinima [((100 : ℚ), (12 : ℚ)), (350, 8)] 300,
        y ∈ [((100 : ℚ), (12 : ℚ)), (350, 8)]) ∧
      (removeDuplicateMinima [((100 : ℚ), (12 : ℚ)), (350, 8)] 300).Pairwise
        (fun a b => a.1 < b.1 ∧ (300 : ℚ) < b.1 - a.1) ∧
      (removeDuplicateMinima [((100 : ℚ), (12 : ℚ)), (350, 8)] 300 = [] ↔
        [((100 : ℚ), (12 : ℚ)), (350, 8)] = ([] : List (ℚ × ℚ)))) :=
  ⟨by norm_num, removeDuplicateMinima_invariants _ 300 (by norm_num)⟩

/-- C2: the scan window is divided into exactly
`max(1, floor(window_seconds / 3600 / segment_hours))` segments, segment
`i` spanning `[i * W / n, (i + 1) * W / n]`; all segments have length
`W / n`, abut each other, start at 0 and end exactly at `W` (the remainder
is folded into the equal segments, never a trailing short one); for
`hours = 10`, `segment_hours = 4` there are exactly 2 segments of 5 hours
(18000 s) each. -/
theorem segmentBounds_equal_cover (durationSeconds segmentHours : ℚ)
    (hW : 0 ≤ durationSeconds) (hs : 0 < segmentHours) :
    (segmentBounds durationSeconds segmentHours).length =
      (max 1 ⌊durationSeconds / 3600 / segmentHours⌋).toNat ∧
    (∀ i (hi : i < (segmentBounds durationSeconds segmentHours).length),
      (segmentBounds durationSeconds segmentHours).get ⟨i, hi⟩ =
        ((i : ℚ) * (durationSeconds /
            ((numSegments durationSeconds segmentHours : ℤ) : ℚ)),
          ((i : ℚ) + 1) * (durationSeconds /
            ((numSegments durationSeconds segmentHours : ℤ) : ℚ)))) ∧
    (∀ seg ∈ segmentBounds durationSeconds segmentHours,
      seg.2 - seg.1 = durationSeconds /
        ((numSegments durationSeconds segmentHours : ℤ) : ℚ)) ∧
    List.Chain' (fun a b : ℚ × ℚ => a.2 = b.1)
      (segmentBounds durationSeconds segmentHours) ∧
    (segmentBounds durationSeconds segmentHours).head?.map Prod.fst =
      some 0 ∧
    (segmentBounds durationSeconds segmentHours).getLast?.map Prod.snd =
      some durationSeconds ∧
    segmentBounds 36000 4 = [(0, 18000), (18000, 36000)] := by
  have hn1 : 1 ≤ numSegments durationSeconds segmentHours := numSegments_pos _ _
  have hnq : (1 : ℚ) ≤ ((numSegments durationSeconds segmentHours : ℤ) : ℚ) := by
    exact_mod_cast hn1
  have hne : ((numSegments durationSeconds segmentHours : ℤ) : ℚ) ≠ 0 := by
    intro h; rw [h] at hnq; linarith
  have hone : numSegments durationSeconds segmentHours =
      max 1 ⌊durationSeconds / 3600 / segmentHours⌋ := by
    have hx : 0 ≤ durationSeconds / 3600 / segmentHours :=
      div_nonneg (div_nonneg hW (by norm_num)) (le_of_lt hs)
    simp [numSegments, pyTrunc, if_pos hx]
  obtain ⟨k, hk⟩ : ∃ k, (numSegments durationSeconds segmentHours).toNat = k + 1 :=
    ⟨(numSegments durationSeconds segmentHours).toNat - 1, by omega⟩
  refine ⟨?_, ?_, ?_, ?_, ?_, ?_, ?_⟩
  · rw [segmentBounds_length, hone]
  · intro i hi
    simp only [segmentBounds, List.get_eq_getElem, List.getElem_map,
      List.getElem_range]
  · intro seg hseg
    simp only [segmentBounds] at hseg
    obtain ⟨i, _, rfl⟩ := List.mem_map.mp hseg
    ring
  · simp only [segmentBounds]
    rw [List.chain'_map, hk, List.chain'_range_succ]
    intro m _
    push_cast
    ring
  · simp only [segmentBounds]
    rw [hk, List.range_succ_eq_map]
    simp
  · simp only [segmentBounds]
    rw [hk, List.range_succ, List.map_append]
    simp only [List.map_cons, List.map_nil]
    rw [List.getLast?_concat]
    have hkn : ((k : ℚ) + 1) =
        ((numSegments durationSeconds segmentHours : ℤ) : ℚ) := by
      have h1 : ((k : ℤ) + 1) = numSegments durationSeconds segmentHours := by
        omega
      exact_mod_cast h1
    simp only [Option.map_some']
    rw [hkn, mul_comm, div_mul_cancel₀ _ hne]
  · have h2 : numSegments 36000 4 = 2 := by norm_num [numSegments, pyTrunc]
    have h3 : List.range (Int.toNat 2) = [0, 1] := by decide
    simp only [segmentBounds, h2, h3]
    norm_num

/-- Witness for C2 at `hours = 10` (36000 s window), `segment_hours = 4`. -/
theorem segmentBounds_equal_cover_witness :
    (0 : ℚ) ≤ 36000 ∧ (0 : ℚ) < 4 ∧
    (segmentBounds 36000 4).length = (max 1 ⌊(36000 : ℚ) / 3600 / 4⌋).toNat ∧
    (∀ seg ∈ segmentBounds 36000 4,
      seg.2 - seg.1 = (36000 : ℚ) / ((numSegments 36000 4 : ℤ) : ℚ)) ∧
    (segmentBounds 36000 4).getLast?.map Prod.snd = some 36000 :=
  have h := segmentBounds_equal_cover 36000 4 (by norm_num) (by norm_num)
  ⟨by norm_num, by norm_num, h.1, h.2.2.1, h.2.2.2.2.2.1⟩

/-- The acceptance test unfolded to its two inequalities. -/
theorem acceptsDistance_iff {minDistanceKm thresholdKm d : ℚ} :
    acceptsDistance minDistanceKm thresholdKm d = true ↔
      minDistanceKm ≤ d ∧ d ≤ thresholdKm := by
  simp [acceptsDistance]

/-- C4: the alert level is a pure function of the distance: RED below
10 km, YELLOW on [10, 25), GREEN on [25, 50); 9.999 km is RED, 10 km
YELLOW, 24.999 km YELLOW, 25 km GREEN; and a distance of 50.001 km fails
the acceptance test under `threshold_km = 50`, so such a candidate is
excluded from the result set. -/
theorem alertLevel_bands :
    (∀ d : ℚ, d < 10 → alertLevel d = .RED) ∧
    (∀ d : ℚ, 10 ≤ d → d < 25 → alertLevel d = .YELLOW) ∧
    (∀ d : ℚ, 25 ≤ d → d < 50 → alertLevel d = .GREEN) ∧
    alertLevel (9999 / 1000) = .RED ∧
    alertLevel 10 = .YELLOW ∧
    alertLevel (24999 / 1000) = .YELLOW ∧
    alertLevel 25 = .GREEN ∧
    acceptsDistance (1 / 10) 50 (50001 / 1000) = false := by
  refine ⟨?_, ?_, ?_, ?_, ?_, ?_, ?_, ?_⟩
  · intro d h
    rw [alertLevel, if_pos h]
  · intro d h1 h2
    rw [alertLevel, if_neg (not_lt.mpr h1), if_pos h2]
  · intro d h1 _
    rw [alertLevel, if_neg (not_lt.mpr (by linarith)),
      if_neg (not_lt.mpr h1)]
  · norm_num [alertLevel]
  · norm_num [alertLevel]
  · norm_num [alertLevel]
  · norm_num [alertLevel]
  · simp only [acceptsDistance, Bool.and_eq_false_iff, decide_eq_false_iff_not,
      not_le]
    right
    norm_num

/-- Witness for C4: 9 km is strictly below 10 km and classified RED. -/
theorem alertLevel_bands_witness : (9 : ℚ) < 10 ∧ alertLevel 9 = .RED :=
  ⟨by norm_num, alertLevel_bands.1 9 (by norm_num)⟩

/-- C10: the alert classifier is total with no upper cutoff: every
distance of at least 25 km maps to GREEN, and the acceptance test is
inclusive at the threshold, so a candidate whose exact-TCA distance is
exactly `threshold_km` (50 km under `threshold_km = 50`) is accepted into
the result set and classified GREEN. -/
theorem alertLevel_green_unbounded :
    (∀ d : ℚ, 25 ≤ d → alertLevel d = .GREEN) ∧
    acceptsDistance (1 / 10) 50 50 = true ∧
    (classifyCandidates (fun v => v.1) (1 / 10) 50
        (fun _ => some ((50, 0, 0), (0, 0, 0)))
        (fun _ => some ((0, 0, 0), (0, 0, 0))) 0
        ⟨"TARGET", "e"⟩ ⟨"OTHER", "e"⟩ 1 2 [100]).map
      (fun r => (r.distance_km, alertLevel r.distance_km)) =
      [(50, .GREEN)] := by
  refine ⟨?_, ?_, ?_⟩
  · intro d h
    rw [alertLevel, if_neg (not_lt.mpr (by linarith)),
      if_neg (not_lt.mpr h)]
  · simp only [acceptsDistance]
    norm_num
  · norm_num [classifyCandidates, acceptsDistance, alertLevel]

/-- Witness for C10: 60 km is at least 25 km and classified GREEN. -/
theorem alertLevel_green_unbounded_witness :
    (25 : ℚ) ≤ 60 ∧ alertLevel 60 = .GREEN :=
  ⟨by norm_num, alertLevel_green_unbounded.1 60 (by norm_num)⟩

/-- C7: the epoch filter keeps exactly the objects whose parsed epoch age
`(reference - epoch) / 86400` days is at most the configured maximum, and
counts as skipped every other object — those too old and every object
whose epoch fails to parse; the filter is total, so a parse failure never
aborts the filtering operation. -/
theorem filterSatellitesByEpoch_spec (parse : String → Option ℚ)
    (maxEpochAgeDays refTime : ℚ) (sats : List (ℕ × GPData)) :
    filterSatellitesByEpoch parse maxEpochAgeDays refTime sats =
      (sats.filter (fun kv =>
          match parse kv.2.epoch with
          | some epochTime =>
            decide ((refTime - epochTime) / 86400 ≤ maxEpochAgeDays)
          | none => false),
        (sats.filter (fun kv =>
          match parse kv.2.epoch with
          | some epochTime =>
            !decide ((refTime - epochTime) / 86400 ≤ maxEpochAgeDays)
          | none => true)).length) := by
  induction sats with
  | nil => rfl
  | cons kv rest ih =>
    obtain ⟨catNum, sat⟩ := kv
    simp only [filterSatellitesByEpoch, ih]
    cases hp : parse sat.epoch with
    | none => simp [List.filter_cons, hp]
    | some epochTime =>
      by_cases hage : (refTime - epochTime) / 86400 ≤ maxEpochAgeDays
      · simp [List.filter_cons, hp, hage]
      · simp [List.filter_cons, hp, hage]

/-- C6: target resolution aborts with an error exactly when the target
catalog id is missing from both the epoch-filtered set and the unfiltered
catalog; when the (nonempty) filtered set lacks the target but the
unfiltered catalog has it, the target is force-included with the WARNING
and the scan proceeds. -/
theorem resolveTarget_abort_iff (filtered allSats : List (ℕ × GPData))
    (targetCatalog : ℕ) :
    (resolveTarget filtered allSats targetCatalog = none ↔
      List.lookup targetCatalog filtered = none ∧
      List.lookup targetCatalog allSats = none) ∧
    (filtered ≠ [] →
      List.lookup targetCatalog filtered = none →
      ∀ sat, List.lookup targetCatalog allSats = some sat →
        resolveTarget filtered allSats targetCatalog =
          some ⟨(targetCatalog, sat) :: filtered, [.targetReadded]⟩) := by
  cases filtered with
  | nil =>
    refine ⟨?_, ?_⟩
    · simp only [resolveTarget, List.isEmpty_nil, if_pos]
      cases hl : List.lookup targetCatalog allSats with
      | none => simp [hl]
      | some sat => simp [hl]
    · intro h
      exact absurd rfl h
  | cons f fs =>
    have hne : ((f :: fs : List (ℕ × GPData)).isEmpty) = false := rfl
    refine ⟨?_, ?_⟩
    · simp only [resolveTarget, hne, Bool.false_eq_true, if_neg,
        not_false_iff]
      cases hf : List.lookup targetCatalog (f :: fs) with
      | none =>
        cases hl : List.lookup targetCatalog allSats with
        | none => simp [hl]
        | some sat => simp [hl]
      | some sat => simp
    · intro _ hfnone sat hl
      simp only [resolveTarget, hne, Bool.false_eq_true, if_neg,
        not_false_iff, hfnone, hl]

/-- Witness for C6: a nonempty filtered set lacking target 1, which the
unfiltered catalog contains: the resolution force-includes the target
with the WARNING, and the abort condition is equivalent to absence from
both sets. -/
theorem resolveTarget_abort_iff_witness :
    (resolveTarget [(2, (⟨"B", "e"⟩ : GPData))]
        [(1, (⟨"A", "e"⟩ : GPData)), (2, ⟨"B", "e"⟩)] 1 = none ↔
      List.lookup 1 [(2, (⟨"B", "e"⟩ : GPData))] = none ∧
      List.lookup 1 [(1, (⟨"A", "e"⟩ : GPData)), (2, ⟨"B", "e"⟩)] = none) ∧
      ([(2, (⟨"B", "e"⟩ : GPData))] ≠ [] →
        List.lookup 1 [(2, (⟨"B", "e"⟩ : GPData))] = none →
        ∀ sat, List.lookup 1 [(1, (⟨"A", "e"⟩ : GPData)), (2, ⟨"B", "e"⟩)] =
            some sat →
          resolveTarget [(2, (⟨"B", "e"⟩ : GPData))]
              [(1, (⟨"A", "e"⟩ : GPData)), (2, ⟨"B", "e"⟩)] 1 =
            some ⟨(1, sat) :: [(2, ⟨"B", "e"⟩)], [.targetReadded]⟩) ∧
      resolveTarget [(2, (⟨"B", "e"⟩ : GPData))]
          [(1, (⟨"A", "e"⟩ : GPData)), (2, ⟨"B", "e"⟩)] 1 =
        some ⟨[(1, ⟨"A", "e"⟩), (2, ⟨"B", "e"⟩)], [.targetReadded]⟩ :=
  have h := resolveTarget_abort_iff [(2, (⟨"B", "e"⟩ : GPData))]
    [(1, (⟨"A", "e"⟩ : GPData)), (2, ⟨"B", "e"⟩)] 1
  ⟨h.1, h.2, h.2 (by simp) rfl ⟨"A", "e"⟩ rfl⟩

/-- C8 counterexample: with an empty filtered set and a catalog containing
the target and another object, the scan falls back to the unfiltered
catalog and proceeds — but the emitted warning list is empty: the fallback
is silent, refuting the claimed caller-visible warning. -/
theorem resolveTarget_silent_fallback_counterexample :
    resolveTarget [] [(1, (⟨"A", "e"⟩ : GPData)), (2, ⟨"B", "e"⟩)] 1 =
      some ⟨[(1, ⟨"A", "e"⟩), (2, ⟨"B", "e"⟩)], []⟩ ∧
    (resolveTarget [] [(1, (⟨"A", "e"⟩ : GPData)), (2, ⟨"B", "e"⟩)] 1).map
      ResolveResult.warnings = some [] := by
  constructor <;> rfl

/-- C8 (amended): if epoch filtering leaves an empty set while the full
catalog still contains the target, the scan silently falls back to the
unfiltered catalog and proceeds — no error, but also no warning emitted by
the fallback itself. -/
theorem resolveTarget_fallback_unfiltered (allSats : List (ℕ × GPData))
    (targetCatalog : ℕ) (sat : GPData)
    (hmem : List.lookup targetCatalog allSats = some sat) :
    resolveTarget [] allSats targetCatalog = some ⟨allSats, []⟩ := by
  simp only [resolveTarget, List.isEmpty_nil, if_pos, hmem]

/-- Witness for C8's amended theorem at a concrete one-object catalog. -/
theorem resolveTarget_fallback_unfiltered_witness :
    List.lookup 1 [(1, (⟨"A", "e"⟩ : GPData))] = some ⟨"A", "e"⟩ ∧
    resolveTarget [] [(1, (⟨"A", "e"⟩ : GPData))] 1 =
      some ⟨[(1, ⟨"A", "e"⟩)], []⟩ :=
  ⟨rfl, resolveTarget_fallback_unfiltered [(1, ⟨"A", "e"⟩)] 1 ⟨"A", "e"⟩ rfl⟩

/-- One classification step when the first propagation raises at the TCA:
the candidate is dropped. -/
theorem classifyCandidates_cons_fail1 {norm3 : Vec3 → ℚ}
    {minDistanceKm thresholdKm : ℚ} {prop1 prop2 : PropFun} {startTime : ℚ}
    {targetSat otherSat : GPData} {targetCatalog otherCatalog : ℕ}
    {offsetSeconds : ℚ} {rest : List ℚ}
    (hp1 : prop1 (startTime + offsetSeconds) = none) :
    classifyCandidates norm3 minDistanceKm thresholdKm prop1 prop2 startTime
        targetSat otherSat targetCatalog otherCatalog (offsetSeconds :: rest) =
      classifyCandidates norm3 minDistanceKm thresholdKm prop1 prop2 startTime
        targetSat otherSat targetCatalog otherCatalog rest := by
  simp only [classifyCandidates, List.foldr_cons, hp1]

/-- One classification step when the second propagation raises at the TCA:
the candidate is dropped. -/
theorem classifyCandidates_cons_fail2 {norm3 : Vec3 → ℚ}
    {minDistanceKm thresholdKm : ℚ} {prop1 prop2 : PropFun} {startTime : ℚ}
    {targetSat otherSat : GPData} {targetCatalog otherCatalog : ℕ}
    {offsetSeconds : ℚ} {rest : List ℚ}
    (hp2 : prop2 (startTime + offsetSeconds) = none) :
    classifyCandidates norm3 minDistanceKm thresholdKm prop1 prop2 startTime
        targetSat otherSat targetCatalog otherCatalog (offsetSeconds :: rest) =
      classifyCandidates norm3 minDistanceKm thresholdKm prop1 prop2 startTime
        targetSat otherSat targetCatalog otherCatalog rest := by
  simp only [classifyCandidates, List.foldr_cons, hp2]
  cases hp1 : prop1 (startTime + offsetSeconds) with
  | none => rfl
  | some pv1 => rfl

/-- One classification step when both propagations succeed at the TCA. -/
theorem classifyCandidates_cons_ok {norm3 : Vec3 → ℚ}
    {minDistanceKm thresholdKm : ℚ} {prop1 prop2 : PropFun} {startTime : ℚ}
    {targetSat otherSat : GPData} {targetCatalog otherCatalog : ℕ}
    {offsetSeconds : ℚ} {rest : List ℚ} {p1 v1 p2 v2 : Vec3}
    (hp1 : prop1 (startTime + offsetSeconds) = some (p1, v1))
    (hp2 : prop2 (startTime + offsetSeconds) = some (p2, v2)) :
    classifyCandidates norm3 minDistanceKm thresholdKm prop1 prop2 startTime
        targetSat otherSat targetCatalog otherCatalog (offsetSeconds :: rest) =
      if acceptsDistance minDistanceKm thresholdKm (norm3 (p1 - p2)) then
        ⟨startTime + offsetSeconds, targetSat.name, targetCatalog,
          otherSat.name, otherCatalog, norm3 (p1 - p2), p1, p2, v1, v2,
          norm3 (v1 - v2)⟩ ::
          classifyCandidates norm3 minDistanceKm thresholdKm prop1 prop2
            startTime targetSat otherSat targetCatalog otherCatalog rest
      else
        classifyCandidates norm3 minDistanceKm thresholdKm prop1 prop2
          startTime targetSat otherSat targetCatalog otherCatalog rest := by
  simp only [classifyCandidates, List.foldr_cons, hp1, hp2]

/-- Every record built by the classifier comes from one of the candidate
offsets, carries the distance recomputed from the two propagations at the
exact TCA, and passes the acceptance bounds. -/
theorem classifyCandidates_mem {norm3 : Vec3 → ℚ}
    {minDistanceKm thresholdKm : ℚ} {prop1 prop2 : PropFun} {startTime : ℚ}
    {targetSat otherSat : GPData} {targetCatalog otherCatalog : ℕ} :
    ∀ (offsets : List ℚ) (rec : CloseApproach),
      rec ∈ classifyCandidates norm3 minDistanceKm thresholdKm prop1 prop2
        startTime targetSat otherSat targetCatalog otherCatalog offsets →
      ∃ off, off ∈ offsets ∧ rec.tca = startTime + off ∧
        minDistanceKm ≤ rec.distance_km ∧ rec.distance_km ≤ thresholdKm ∧
        ∃ p1 v1 p2 v2,
          prop1 (startTime + off) = some (p1, v1) ∧
          prop2 (startTime + off) = some (p2, v2) ∧
          rec.distance_km = norm3 (p1 - p2)
  | [], rec, h => by simp [classifyCandidates] at h
  | off :: rest, rec, h => by
    have hrest : rec ∈ classifyCandidates norm3 minDistanceKm thresholdKm
        prop1 prop2 startTime targetSat otherSat targetCatalog otherCatalog
        rest → ∃ off', off' ∈ off :: rest ∧ rec.tca = startTime + off' ∧
          minDistanceKm ≤ rec.distance_km ∧ rec.distance_km ≤ thresholdKm ∧
          ∃ p1 v1 p2 v2, prop1 (startTime + off') = some (p1, v1) ∧
            prop2 (startTime + off') = some (p2, v2) ∧
            rec.distance_km = norm3 (p1 - p2) := by
      intro hmem
      obtain ⟨off', h1, h2⟩ := classifyCandidates_mem rest rec hmem
      exact ⟨off', List.mem_cons_of_mem off h1, h2⟩
    cases hp1 : prop1 (startTime + off) with
    | none => exact hrest ((classifyCandidates_cons_fail1 hp1) ▸ h)
    | some pv1 =>
      cases hp2 : prop2 (startTime + off) with
      | none => exact hrest ((classifyCandidates_cons_fail2 hp2) ▸ h)
      | some pv2 =>
        obtain ⟨p1, v1⟩ := pv1
        obtain ⟨p2, v2⟩ := pv2
        rw [classifyCandidates_cons_ok hp1 hp2] at h
        by_cases hacc : acceptsDistance minDistanceKm thresholdKm
          (norm3 (p1 - p2)) = true
        · rw [if_pos hacc] at h
          rcases List.mem_cons.mp h with rfl | hmem
          · obtain ⟨hlo, hhi⟩ := acceptsDistance_iff.mp hacc
            exact ⟨off, List.mem_cons_self off rest, rfl, hlo, hhi,
              p1, v1, p2, v2, hp1, hp2, rfl⟩
          · exact hrest hmem
        · rw [if_neg hacc] at h
          exact hrest h

/-- Every minimum collected by the segmented Brent loop comes from a
minimizer success on one of the segments, with a value below the
screening threshold. -/
theorem brentOverSegments_mem (minimize : Minimizer) (f : ℚ → DistanceValue)
    (screeningThresholdKm : ℚ) :
    ∀ (segs : List (ℚ × ℚ)) (y : ℚ × ℚ),
      y ∈ brentOverSegments minimize f screeningThresholdKm segs →
      ∃ seg, seg ∈ segs ∧
        minimize f seg.1 seg.2 = some (y.1, .fin y.2) ∧
        y.2 < screeningThresholdKm
  | [], y, h => by simp [brentOverSegments] at h
  | seg :: rest, y, h => by
    have hrest : y ∈ brentOverSegments minimize f screeningThresholdKm rest →
        ∃ seg', seg' ∈ seg :: rest ∧
          minimize f seg'.1 seg'.2 = some (y.1, .fin y.2) ∧
          y.2 < screeningThresholdKm := by
      intro hmem
      obtain ⟨seg', h1, h2⟩ := brentOverSegments_mem minimize f
        screeningThresholdKm rest y hmem
      exact ⟨seg', List.mem_cons_of_mem seg h1, h2⟩
    simp only [brentOverSegments] at h
    revert h
    cases hm : minimize f seg.1 seg.2 with
    | none => intro h; exact hrest h
    | some xfx =>
      obtain ⟨x, fx⟩ := xfx
      cases fx with
      | inf => intro h; exact hrest h
      | fin q =>
        intro h
        have h' : y ∈ (if q < screeningThresholdKm then
            (x, q) :: brentOverSegments minimize f screeningThresholdKm rest
          else brentOverSegments minimize f screeningThresholdKm rest) := h
        by_cases hq : q < screeningThresholdKm
        · rw [if_pos hq] at h'
          rcases List.mem_cons.mp h' with rfl | hmem
          · exact ⟨seg, List.mem_cons_self seg rest, hm, hq⟩
          · exact hrest hmem
        · rw [if_neg hq] at h'
          exact hrest h' 

/-- A deduplicated offset is the offset of some input candidate. -/
theorem mem_map_fst_removeDuplicateMinima {o : ℚ} {minima : List (ℚ × ℚ)}
    {t : ℚ} (h : o ∈ (removeDuplicateMinima minima t).map Prod.fst) :
    ∃ d, (o, d) ∈ minima := by
  obtain ⟨pair, hmem, heq⟩ := List.mem_map.mp h
  obtain ⟨o', d⟩ := pair
  obtain rfl : o' = o := heq
  exact ⟨d, removeDuplicateMinima_mem hmem⟩

/-- C3: every `CloseApproach` record produced by a pair scan satisfies
`min_distance_km ≤ distance_km ≤ threshold_km`, where the distance is the
one recomputed by re-propagating both objects at the exact TCA (not the
minimizer sample), and its TCA lies within the scan window
`[start_time, start_time + duration]`; moreover a deduplicated candidate
whose re-propagated distance falls below `min_distance_km` (0.05 km under
`min_distance_km = 0.1`) produces no record. -/
theorem scanPair_records_in_bounds (minimize : Minimizer)
    (hmin : BoundedMinimizer minimize) (norm3 : Vec3 → ℚ)
    (minDistanceKm thresholdKm : ℚ) (prop1 prop2 : PropFun)
    (startTime durationSeconds screeningThresholdKm segmentHours
      dedupSeconds : ℚ) (hW : 0 ≤ durationSeconds)
    (targetSat otherSat : GPData) (targetCatalog otherCatalog : ℕ) :
    (∀ rec ∈ (scanPairWithStats minimize norm3 minDistanceKm thresholdKm
        prop1 prop2 startTime durationSeconds screeningThresholdKm
        segmentHours dedupSeconds targetSat otherSat targetCatalog
        otherCatalog).1,
      minDistanceKm ≤ rec.distance_km ∧ rec.distance_km ≤ thresholdKm ∧
      startTime ≤ rec.tca ∧ rec.tca ≤ startTime + durationSeconds ∧
      ∃ p1 v1 p2 v2,
        prop1 rec.tca = some (p1, v1) ∧ prop2 rec.tca = some (p2, v2) ∧
        rec.distance_km = norm3 (p1 - p2)) ∧
    classifyCandidates (fun v => v.1) (1 / 10) 50
        (fun _ => some ((1 / 20, 0, 0), (0, 0, 0)))
        (fun _ => some ((0, 0, 0), (0, 0, 0))) 0 targetSat otherSat
        targetCatalog otherCatalog [100] = [] := by
  constructor
  · intro rec hrec
    simp only [scanPairWithStats] at hrec
    obtain ⟨off, hoff, htca, hlo, hhi, hprop⟩ :=
      classifyCandidates_mem _ rec hrec
    obtain ⟨d, hd⟩ := mem_map_fst_removeDuplicateMinima hoff
    simp only [findMinimumDistanceBrent] at hd
    obtain ⟨seg, hseg, hmz, _⟩ := brentOverSegments_mem _ _ _ _ _ hd
    obtain ⟨hax, hxb⟩ := hmin _ _ _ _ _ hmz
    obtain ⟨h0, _, h2⟩ := segmentBounds_subset_window hW hseg
    have h3 : 0 ≤ off := le_trans h0 hax
    have h4 : off ≤ durationSeconds := le_trans hxb h2
    rw [htca]
    exact ⟨hlo, hhi, by linarith, by linarith, hprop⟩
  · norm_num [classifyCandidates, acceptsDistance, Prod.mk_sub_mk]

/-- Witness for C3: a concrete bounded minimizer, concrete propagators and
a 1-hour window that produce an accepted record. -/
theorem scanPair_records_in_bounds_witness :
    BoundedMinimizer
      (fun f a b => if a ≤ b then some (a, f a) else none) ∧
    (0 : ℚ) ≤ 3600 ∧
    ((∀ rec ∈ (scanPairWithStats
        (fun f a b => if a ≤ b then some (a, f a) else none) (fun v => v.1)
        (1 / 10) 50 (fun _ => some ((5, 0, 0), (0, 0, 0)))
        (fun _ => some ((0, 0, 0), (0, 0, 0))) 0 3600 100 4 300
        ⟨"TARGET", "e"⟩ ⟨"OTHER", "e"⟩ 1 2).1,
      (1 : ℚ) / 10 ≤ rec.distance_km ∧ rec.distance_km ≤ 50 ∧
      (0 : ℚ) ≤ rec.tca ∧ rec.tca ≤ 0 + 3600 ∧
      ∃ p1 v1 p2 v2,
        (fun _ : ℚ => some (((5 : ℚ), (0 : ℚ), (0 : ℚ)),
          ((0 : ℚ), (0 : ℚ), (0 : ℚ)))) rec.tca = some (p1, v1) ∧
        (fun _ : ℚ => some (((0 : ℚ), (0 : ℚ), (0 : ℚ)),
          ((0 : ℚ), (0 : ℚ), (0 : ℚ)))) rec.tca = some (p2, v2) ∧
        rec.distance_km = (fun v : Vec3 => v.1) (p1 - p2)) ∧
    classifyCandidates (fun v => v.1) (1 / 10) 50
        (fun _ => some ((1 / 20, 0, 0), (0, 0, 0)))
        (fun _ => some ((0, 0, 0), (0, 0, 0))) 0 ⟨"TARGET", "e"⟩
        ⟨"OTHER", "e"⟩ 1 2 [100] = []) := by
  have hbnd : BoundedMinimizer
      (fun f a b => if a ≤ b then some (a, f a) else none) := by
    intro f a b x fx hsome
    simp only at hsome
    by_cases hab : a ≤ b
    · rw [if_pos hab] at hsome
      have h1 : a = x := congrArg Prod.fst (Option.some.inj hsome)
      subst h1
      exact ⟨le_refl a, hab⟩
    · rw [if_neg hab] at hsome
      exact Option.noConfusion hsome
  exact ⟨hbnd, by norm_num,
    scanPair_records_in_bounds _ hbnd (fun v => v.1) (1 / 10) 50
      (fun _ => some ((5, 0, 0), (0, 0, 0)))
      (fun _ => some ((0, 0, 0), (0, 0, 0))) 0 3600 100 4 300 (by norm_num)
      ⟨"TARGET", "e"⟩ ⟨"OTHER", "e"⟩ 1 2⟩

/-- C5 (amended): propagation failure at a sampled time makes the pair
distance function evaluate to `inf` there instead of aborting the segment
search, and propagation failure at the exact TCA drops that candidate
from the classification; both failures are absorbed locally (every
function in the pipeline is total, so no error reaches the scan level),
but no statistic counts them. -/
theorem propagation_failure_absorbed (norm3 : Vec3 → ℚ)
    (prop1 prop2 : PropFun) (startTime offsetSeconds : ℚ)
    (minDistanceKm thresholdKm : ℚ) (targetSat otherSat : GPData)
    (targetCatalog otherCatalog : ℕ) (rest : List ℚ)
    (hfail : prop1 (startTime + offsetSeconds) = none ∨
      prop2 (startTime + offsetSeconds) = none) :
    distance_at_offset norm3 prop1 prop2 startTime offsetSeconds =
      DistanceValue.inf ∧
    classifyCandidates norm3 minDistanceKm thresholdKm prop1 prop2 startTime
        targetSat otherSat targetCatalog otherCatalog
        (offsetSeconds :: rest) =
      classifyCandidates norm3 minDistanceKm thresholdKm prop1 prop2
        startTime targetSat otherSat targetCatalog otherCatalog rest := by
  constructor
  · rcases hfail with h | h
    · simp only [distance_at_offset, h]
    · simp only [distance_at_offset, h]
      cases hp1 : prop1 (startTime + offsetSeconds) with
      | none => rfl
      | some pv1 => rfl
  · rcases hfail with h | h
    · exact classifyCandidates_cons_fail1 h
    · exact classifyCandidates_cons_fail2 h

/-- Witness for C5's amended theorem: a propagator that fails at the TCA
sample `0 + 100`. -/
theorem propagation_failure_absorbed_witness :
    ((none : Option (Vec3 × Vec3)) = none ∨
      (some (((0 : ℚ), (0 : ℚ), (0 : ℚ)), ((0 : ℚ), (0 : ℚ), (0 : ℚ))) :
        Option (Vec3 × Vec3)) = none) ∧
    (distance_at_offset (fun v => v.1) (fun _ => none)
        (fun _ => some ((0, 0, 0), (0, 0, 0))) 0 100 = DistanceValue.inf ∧
      classifyCandidates (fun v => v.1) (1 / 10) 50 (fun _ => none)
          (fun _ => some ((0, 0, 0), (0, 0, 0))) 0 ⟨"TARGET", "e"⟩
          ⟨"OTHER", "e"⟩ 1 2 [100] =
        classifyCandidates (fun v => v.1) (1 / 10) 50 (fun _ => none)
          (fun _ => some ((0, 0, 0), (0, 0, 0))) 0 ⟨"TARGET", "e"⟩
          ⟨"OTHER", "e"⟩ 1 2 []) :=
  ⟨Or.inl rfl,
    propagation_failure_absorbed (fun v => v.1) (fun _ => none)
      (fun _ => some ((0, 0, 0), (0, 0, 0))) 0 100 (1 / 10) 50
      ⟨"TARGET", "e"⟩ ⟨"OTHER", "e"⟩ 1 2 [] (Or.inl rfl)⟩

/-- C5 counterexample (the "counted in statistics" part): two pair scans
identical except that the first one's propagator fails at the exact TCA
produce identical statistics `(1 minimum found, smallest non-docked
distance 5 km)`; the failing scan drops its candidate and reports no
record while the healthy one reports it, so no statistic reflects the
propagation failure. -/
theorem scanPair_stats_ignore_tca_failure :
    scanPairWithStats (fun _ _ _ => some (100, .fin 5)) (fun v => v.1)
        (1 / 10) 50 (fun _ => none) (fun _ => some ((0, 0, 0), (0, 0, 0)))
        0 14400 100 4 300 ⟨"TARGET", "e"⟩ ⟨"OTHER", "e"⟩ 1 2 =
      ([], (1, .fin 5)) ∧
    (scanPairWithStats (fun _ _ _ => some (100, .fin 5)) (fun v => v.1)
        (1 / 10) 50 (fun _ => some ((5, 0, 0), (0, 0, 0)))
        (fun _ => some ((0, 0, 0), (0, 0, 0)))
        0 14400 100 4 300 ⟨"TARGET", "e"⟩ ⟨"OTHER", "e"⟩ 1 2).2 =
      (1, .fin 5) ∧
    ((scanPairWithStats (fun _ _ _ => some (100, .fin 5)) (fun v => v.1)
        (1 / 10) 50 (fun _ => some ((5, 0, 0), (0, 0, 0)))
        (fun _ => some ((0, 0, 0), (0, 0, 0)))
        0 14400 100 4 300 ⟨"TARGET", "e"⟩ ⟨"OTHER", "e"⟩ 1 2).1).map
      (fun r => r.distance_km) = [5] := by
  have hseg : segmentBounds 14400 4 = [(0, 14400)] := by
    have h1 : numSegments 14400 4 = 1 := by norm_num [numSegments, pyTrunc]
    have h2 : List.range (Int.toNat 1) = [0] := by decide
    simp only [segmentBounds, h1, h2]
    norm_num
  have hdedup : removeDuplicateMinima [(100, 5)] 300 = [(100, 5)] := by
    norm_num [removeDuplicateMinima, sortByOffset, insertByOffset, dedupGo,
      minByDist]
  refine ⟨?_, ?_, ?_⟩ <;>
    simp only [scanPairWithStats, findMinimumDistanceBrent, hseg] <;>
    norm_num [brentOverSegments, hdedup, classifyCandidates, minNonDocked,
      acceptsDistance, Prod.mk_sub_mk]

end CollisionDetect
